import Mathlib

/-!
Shallow embedding of the wire framing and session layer of the
`rs-quotesdirect` client library, together with theorems settling the
specification claims about it.

Conventions of the embedding:
* machine integers (`u8`, `u32`, `u64`) are `Nat` with an explicit
  `% 2 ^ w` wherever the Rust code can overflow/wrap;
* byte streams are `List Nat` (each element a byte value `< 256` where
  the Rust type is `u8`);
* fallible Rust code (`Result`, `anyhow::Result`) becomes `Except`;
  the `Ok(None)` end-of-stream becomes `.ok none`.
-/

namespace QuotesDirect

/-- Errors of the library (`lib.rs`): `InvalidPacketLength(u64)` plus a
    transparent I/O error (whose payload we do not model). -/
inductive Error where
  | InvalidPacketLength (len : Nat)
  | IoError
deriving DecidableEq, Repr

/-- One accumulation step of `read_var_uint` (`sync/packets.rs`):
    the Rust `value <<= 7; value |= u64::from(byte & 0x7f)` on a `u64`.
    Since the shifted value has its low 7 bits clear modulo `2 ^ 64`
    (as `128` divides `2 ^ 64`), the bitwise-or is addition of `byte % 128`. -/
def varUintStep (value byte : Nat) : Nat :=
  (value * 2 ^ 7 + byte % 2 ^ 7) % 2 ^ 64

/-- The read loop of `read_var_uint`: process the current `byte`; if its high
    (stop) bit `0x80` is set, return the accumulated value and the unread rest
    of the input; otherwise read the next byte, where exhausting the input
    mid-sequence is a hard I/O error (`read_exact` fails and `?` propagates). -/
def varUintLoop : Nat → Nat → List Nat → Except Error (Nat × List Nat)
  | value, byte, [] =>
    if byte.testBit 7 then .ok (varUintStep value byte, []) else .error .IoError
  | value, byte, b :: rest =>
    if byte.testBit 7 then .ok (varUintStep value byte, b :: rest)
    else varUintLoop (varUintStep value byte) b rest

/-- Embedding of `read_var_uint`: if the very first read finds the stream
    exhausted, this is a clean end of stream (`Ok(None)`); otherwise run the
    stop-bit loop. -/
def read_var_uint : List Nat → Except Error (Option (Nat × List Nat))
  | [] => .ok none
  | b :: rest => (varUintLoop 0 b rest).map some

/-- The push loop of `write_var_uint`: repeatedly shift the value right by 7
    and push the low 7-bit group (stop bit clear) while it is nonzero. -/
def varUintHighGroups (value : Nat) : List Nat :=
  if value = 0 then [] else value % 2 ^ 7 :: varUintHighGroups (value / 2 ^ 7)
termination_by value
decreasing_by
  exact Nat.div_lt_self (Nat.pos_of_ne_zero (by assumption)) (by norm_num)

/-- Embedding of `write_var_uint`: the buffer starts with the stop byte
    `(value & 0x7f) | 0x80` (= `value % 128 + 128`), then the higher 7-bit
    groups of `value >> 7`, and is reversed before being written out. -/
def write_var_uint (value : Nat) : List Nat :=
  ((value % 2 ^ 7 + 2 ^ 7) :: varUintHighGroups (value / 2 ^ 7)).reverse

/-- Entry into the decode loop on a nonempty byte list. -/
def varUintRun (value : Nat) : List Nat → Except Error (Nat × List Nat)
  | [] => .error .IoError
  | b :: rest => varUintLoop value b rest

/-- Packet shape `UDPPacket { seq_num: u32, sub_channel: u8, payload }`. -/
structure UDPPacket where
  seq_num : Nat
  sub_channel : Nat
  payload : List Nat
deriving DecidableEq, Repr

/-- Embedding of `UDPPacket::read`: a buffer shorter than 5 bytes is
    `Error::InvalidPacketLength(buffer.len())`; otherwise the sequence number
    is `b[0] << 24 | b[1] << 16 | b[2] << 8 | b[3]`, the sub-channel is
    `b[4]`, and the payload is the remaining bytes `b[5..]`. -/
def UDPPacket.read (buffer : List Nat) : Except Error UDPPacket :=
  if buffer.length < 5 then .error (.InvalidPacketLength buffer.length)
  else .ok { seq_num := buffer[0]! <<< 24 ||| buffer[1]! <<< 16
                          ||| buffer[2]! <<< 8 ||| buffer[3]!,
             sub_channel := buffer[4]!,
             payload := buffer.drop 5 }

/-- Bytes of a Lean string (all embedded strings are ASCII, where code
    points and UTF-8 bytes coincide; Rust's `str::len` is this list's
    length). -/
def strBytes (s : String) : List Nat := s.data.map Char.toNat

/-- The `replace('|', SOH)` delimiter substitution applied before the
    checksum is computed (`SOH` is the byte `0x01`). -/
def substPipes (bs : List Nat) : List Nat :=
  bs.map fun b => if b = 0x7c then 0x01 else b

/-- The checksum fold of `fixit`: `fold(0u8, |acc, c| acc.wrapping_add(*c))`,
    a u8 wrapping sum of the bytes. -/
def fixCrcFold (bs : List Nat) : Nat :=
  bs.foldl (fun acc c => (acc + c) % 256) 0

/-- Embedding of `fixit(text)` (`fix.rs`): prepend `8=FIX.5.0.SP2|9=<len>|`
    (where `<len>` is `text.len() + 1`, the body length including the
    trailing delimiter), append the trailing `|`, substitute the pipe
    placeholder with SOH, sum the bytes into the checksum, and append
    `10=<crc>` — `<crc>` being Rust's decimal `{crc}` formatting of a `u8` —
    followed by a raw SOH byte. -/
def fixit (text : List Nat) : List Nat :=
  let tlen := text.length + 1
  let t := substPipes (strBytes ("8=FIX.5.0.SP2|9=") ++ strBytes (Nat.repr tlen)
    ++ strBytes ("|") ++ text ++ strBytes ("|"))
  t ++ strBytes ("10=") ++ strBytes (Nat.repr (fixCrcFold t)) ++ [0x01]

/-- Embedding of `header(sequence, msg_type)`, with `Utc::now()` made an
    explicit `sending_time` argument. -/
def header (sequence : Nat) (msg_type sending_time : String) : String :=
  "35=" ++ msg_type ++ "|34=" ++ Nat.repr sequence ++ "|49=CQG|52=" ++ sending_time

/-- Embedding of `login(sequence, user, password, heartbeat_interval_sec)`
    (msg type `A`). -/
def login (sequence : Nat) (user password : String)
    (heartbeat_interval_sec : Nat) (sending_time : String) : List Nat :=
  fixit (strBytes (header sequence ("A") sending_time ++ "|108="
    ++ Nat.repr heartbeat_interval_sec ++ "|553=" ++ user ++ "|554=" ++ password))

/-- Embedding of `logout(sequence, message)` (msg type `5`). -/
def logout (sequence : Nat) (message sending_time : String) : List Nat :=
  fixit (strBytes (header sequence ("5") sending_time ++ "|58=" ++ message))

/-- Embedding of `request(sequence, feed_id)` (msg type `c`, the security
    definition request). -/
def request (sequence : Nat) (feed_id : Nat) (sending_time : String) : List Nat :=
  fixit (strBytes (header sequence ("c") sending_time ++ "|1180="
    ++ Nat.repr feed_id))

/-- Bytes of a control message from the start of the `8=` field through the
    field delimiter preceding `10=`, after delimiter substitution: the range
    the checksum is computed over. -/
def fixFront (text : List Nat) : List Nat :=
  substPipes (strBytes ("8=FIX.5.0.SP2|9=")
    ++ strBytes (Nat.repr (text.length + 1))
    ++ strBytes ("|") ++ text ++ strBytes ("|"))

/-- Rust `str::parse::<u32>` (`parse_number` in `feeds.rs`): an optional
    leading `+`, then one or more ASCII digits, with the value required to
    fit in a `u32`; anything else (including an empty string) fails. Tokens
    are `List Char`. -/
def parseU32 (a : List Char) : Option Nat :=
  let s := match a with
    | '+' :: rest => rest
    | _ => a
  if s.isEmpty then none
  else if s.all Char.isDigit then
    let v := s.foldl (fun acc c => acc * 10 + (c.toNat - 48)) 0
    if v < 2 ^ 32 then some v else none
  else none

/-- Split `splitn(2, '-')` restricted to the two-part case: split at the
    first `-`; `none` when no `-` occurs (in which case `parse_range`'s
    second `parts.next()?` returns `None` in the source, with the same
    result). -/
def splitOnceDash : List Char → Option (List Char × List Char)
  | [] => none
  | c :: rest =>
    if c = '-' then some ([], rest)
    else (splitOnceDash rest).map fun p => (c :: p.1, p.2)

/-- Embedding of `parse_range`: both sides of the first `-` must parse as
    `u32`. No ordering between the endpoints is checked. -/
def parse_range (a : List Char) : Option (Nat × Nat) := do
  let (s, e) ← splitOnceDash a
  let lo ← parseU32 s
  let hi ← parseU32 e
  return (lo, hi)

/-- Insertion for `HashSet<u32>`, with the hash set modelled by the canonical
    sorted, duplicate-free list of its elements (iteration order of a
    `HashSet` is unspecified and the source sorts the collected vector at the
    end, so only the set of elements is observable). -/
def setInsert (x : ℕ) : List ℕ → List ℕ
  | [] => [x]
  | y :: l =>
    if x < y then x :: y :: l
    else if x = y then y :: l
    else y :: setInsert x l

/-- The loop `for i in lo..=hi { set.insert(i) }` — inserts nothing when
    `hi < lo` (an empty `RangeInclusive` iteration). -/
def setInsertRange (lo hi : ℕ) (s : List ℕ) : List ℕ :=
  (List.range' lo (hi + 1 - lo)).foldl (fun acc i => setInsert i acc) s

/-- Embedding of `parse_and_push`: a single id inserts itself; otherwise a
    range `N-M` inserts `N..=M`; otherwise the token is the error
    (`bail!("Invalid argument: {arg}")` names the token). -/
def parse_and_push (s : List ℕ) (arg : List Char) :
    Except (List Char) (List ℕ) :=
  match parseU32 arg with
  | some feed_id => .ok (setInsert feed_id s)
  | none =>
    match parse_range arg with
    | some (lo, hi) => .ok (setInsertRange lo hi s)
    | none => .error arg

/-- One iteration of the argument loop of `from_strs`: a leading `!` routes
    the token (with the `!` stripped) into the exclusion set. -/
def processArg (p : List ℕ × List ℕ) (arg : List Char) :
    Except (List Char) (List ℕ × List ℕ) :=
  if arg.head? = some ('!') then
    (parse_and_push p.2 (arg.drop 1)).map fun t => (p.1, t)
  else
    (parse_and_push p.1 arg).map fun t => (t, p.2)

/-- Embedding of `Feeds::from_strs`: accumulate the inclusion and exclusion
    sets over all tokens, then keep the feed ids of the inclusion set that
    are not in the exclusion set, sorted ascending (on the sorted-list model
    the final `sort_unstable` is the identity, and the skip loop is a
    filter). -/
def from_strs (args : List (List Char)) : Except (List Char) (List ℕ) :=
  (args.foldlM processArg ([], [])).map fun sets =>
    sets.1.filter fun x => !sets.2.contains x

/-- Selected data source of a connection: a live TCP stream (`connect`) or a
    recorded file (`read_file`). -/
inductive DataSource where
  | tcp
  | file
deriving DecidableEq, Repr

/-- State of `SDSConnection` that the sequencing and control-message claims
    are about; the FAST decoder and the residual buffer are opaque
    collaborators and are not carried here. -/
structure SDSConnection where
  source : Option DataSource
  in_seq_num_pkt : Nat
  in_seq_num_msg : Nat
  out_seq_num : Nat
deriving DecidableEq, Repr

/-- Constructor `SDSConnection::new`: no source yet, all sequence counters
    start at 1. -/
def SDSConnection.new : SDSConnection :=
  { source := none, in_seq_num_pkt := 1, in_seq_num_msg := 1, out_seq_num := 1 }

/-- Embedding of `SDSConnection::login`: only when the selected source is a
    TCP stream (`if let Some(DataSource::Tcp(stream))`) is the logon message
    — with the heartbeat interval fixed at 60 — written and `out_seq_num`
    advanced; otherwise the call returns `Ok(())` having sent nothing. The
    second component lists the control messages written to the transport. -/
def SDSConnection.login (s : SDSConnection)
    (user password sending_time : String) : SDSConnection × List (List Nat) :=
  match s.source with
  | some .tcp =>
    ({ s with out_seq_num := (s.out_seq_num + 1) % 2 ^ 32 },
     [QuotesDirect.login s.out_seq_num user password 60 sending_time])
  | _ => (s, [])

/-- Embedding of `SDSConnection::request` (subscribe to a feed): same
    TCP-only guard. -/
def SDSConnection.request (s : SDSConnection) (feed_id : Nat)
    (sending_time : String) : SDSConnection × List (List Nat) :=
  match s.source with
  | some .tcp =>
    ({ s with out_seq_num := (s.out_seq_num + 1) % 2 ^ 32 },
     [QuotesDirect.request s.out_seq_num feed_id sending_time])
  | _ => (s, [])

/-- Embedding of `SDSConnection::logout` (reason text `"Logout"`): same
    TCP-only guard. -/
def SDSConnection.logout (s : SDSConnection)
    (sending_time : String) : SDSConnection × List (List Nat) :=
  match s.source with
  | some .tcp =>
    ({ s with out_seq_num := (s.out_seq_num + 1) % 2 ^ 32 },
     [QuotesDirect.logout s.out_seq_num ("Logout") sending_time])
  | _ => (s, [])

/-- The packet-level sequence check of `SDSConnection::read_message`
    (connection.rs lines 99–107): on mismatch the discrepancy is logged (not
    raised) and the expected counter is reset to the received sequence number
    plus one; afterwards the counter is always incremented (u32 arithmetic).
    Returns (mismatch reported?, new expected counter). -/
def pktSeqCheck (in_seq_num_pkt pkt_seq : Nat) : Bool × Nat :=
  let r :=
    if pkt_seq ≠ in_seq_num_pkt then (true, (pkt_seq + 1) % 2 ^ 32)
    else (false, in_seq_num_pkt)
  (r.1, (r.2 + 1) % 2 ^ 32)

/-- Run of the check over a stream of packets with the given sequence
    numbers: for each packet, the mismatch report and the expected counter
    after the check. -/
def pktSeqRun : Nat → List Nat → List (Bool × Nat)
  | _, [] => []
  | s, p :: ps =>
    let r := pktSeqCheck s p
    r :: pktSeqRun r.2 ps

/-- Fields of an `MDSecurityDefinition` message that the catalog reads:
    `tot_num_reports: u32`, `security_id: u32`, `appl_id: String`. -/
structure SecurityDefinition where
  tot_num_reports : Nat
  security_id : Nat
  appl_id : List Char
deriving DecidableEq, Repr

/-- Application messages reaching `SDSClient::read_message`: the Session
    Connection has already rejected every other variant of the source's
    message enum with `bail!("unexpected SDS message")`. -/
inductive Message where
  | MDSecurityDefinition (m : SecurityDefinition)
  | MDHeartbeat
  | MDLogon
  | MDLogout
  | MDSecurityDefinitionRequest
deriving DecidableEq, Repr

/-- Catalog state of `SDSClient`: `defs_count_total`, `defs_count` (both
    `u32`) and the `sec_ids: HashSet<(u32, u32)>` of seen
    `(feed_id, security_id)` keys, modelled as a `Finset`. -/
structure SDSClient where
  defs_count_total : Nat
  defs_count : Nat
  sec_ids : Finset (Nat × Nat)
deriving DecidableEq

/-- Constructor `SDSClient::new`: zero counters, empty seen set (the
    capacity hint is a performance concern only). -/
def SDSClient.new : SDSClient :=
  { defs_count_total := 0, defs_count := 0, sec_ids := ∅ }

/-- The catalog-updating part of `SDSClient::read_message`, applied to a
    message already read and sequence-checked by the Session Connection. For
    a security definition, `defs_count_total` is overwritten from
    `tot_num_reports` *before* `appl_id` is parsed, so when the parse fails
    the `?` returns the error with the total already updated on `&mut self`.
    Otherwise `is_update` is whether the `(feed_id, security_id)` key was
    seen, and a new key is inserted with `defs_count` incremented. All other
    message variants pass through with `is_update = false` and no mutation. -/
def SDSClient.process (s : SDSClient) (msg : Message) :
    SDSClient × Except Unit Bool :=
  match msg with
  | .MDSecurityDefinition m =>
    let s := { s with defs_count_total := m.tot_num_reports }
    match parseU32 m.appl_id with
    | none => (s, .error ())
    | some feed_id =>
      let key := (feed_id, m.security_id)
      if key ∈ s.sec_ids then (s, .ok true)
      else ({ s with
                sec_ids := insert key s.sec_ids
                defs_count := (s.defs_count + 1) % 2 ^ 32 }, .ok false)
  | _ => (s, .ok false)

/-- Embedding of `SDSClient::progress`: `0.0` when `defs_count_total == 0`,
    else `defs_count / defs_count_total * 100`. The `f64` arithmetic is
    modelled over ℚ: both counters are `u32` values (exact in `f64`), and
    `f64` rounding is monotone, so the ordering and the exact values `100.0`
    and `50.0` used below agree with the floating-point computation. -/
def SDSClient.progress (s : SDSClient) : ℚ :=
  if s.defs_count_total = 0 then 0
  else (s.defs_count : ℚ) / (s.defs_count_total : ℚ) * 100

/-! Theorems. -/

lemma read_var_uint_cons (b : Nat) (rest : List Nat) :
    read_var_uint (b :: rest) = (varUintRun 0 (b :: rest)).map some := rfl

lemma varUintRun_append (gs : List Nat) (s : Nat) (rest : List Nat)
    (hg : ∀ g ∈ gs, g.testBit 7 = false) (hs : s.testBit 7 = true) :
    ∀ value, varUintRun value (gs ++ s :: rest) =
      .ok (varUintStep (gs.foldl varUintStep value) s, rest) := by
  induction gs with
  | nil =>
    intro value
    simp [varUintRun, varUintLoop]
    cases rest <;> simp [varUintLoop, hs]
  | cons g gs ih =>
    intro value
    have hgf : g.testBit 7 = false := hg g (by simp)
    have hg' : ∀ x ∈ gs, x.testBit 7 = false := fun x hx => hg x (by simp [hx])
    rcases h : gs ++ s :: rest with _ | ⟨b, l⟩
    · exact absurd h (by simp)
    · have : varUintRun value ((g :: gs) ++ s :: rest)
          = varUintRun (varUintStep value g) (gs ++ s :: rest) := by
        simp only [List.cons_append, varUintRun, h, varUintLoop, hgf]
        simp
      rw [this, ih hg']
      simp

lemma varUintHighGroups_lt (w : Nat) : ∀ g ∈ varUintHighGroups w, g < 2 ^ 7 := by
  induction w using Nat.strong_induction_on with
  | _ w ih =>
    intro g hg
    rw [varUintHighGroups] at hg
    by_cases hw : w = 0
    · simp [hw] at hg
    · simp [hw] at hg
      rcases hg with hg | hg
      · omega
      · exact ih (w / 2 ^ 7)
          (Nat.div_lt_self (Nat.pos_of_ne_zero hw) (by norm_num)) g hg

lemma varUintHighGroups_testBit (w : Nat) :
    ∀ g ∈ varUintHighGroups w, g.testBit 7 = false := fun g hg =>
  Nat.testBit_eq_false_of_lt (varUintHighGroups_lt w g hg)

lemma stopByte_testBit (v : Nat) : (v % 2 ^ 7 + 2 ^ 7).testBit 7 = true := by
  rw [Nat.testBit_to_div_mod]
  have h : v % 2 ^ 7 < 2 ^ 7 := Nat.mod_lt _ (by norm_num)
  have : (v % 2 ^ 7 + 2 ^ 7) / 2 ^ 7 = 1 := by omega
  simp [this]

lemma foldl_varUintStep_highGroups (w : Nat) :
    (varUintHighGroups w).reverse.foldl varUintStep 0 = w % 2 ^ 64 := by
  induction w using Nat.strong_induction_on with
  | _ w ih =>
    rw [varUintHighGroups]
    by_cases hw : w = 0
    · simp [hw]
    · simp only [hw, if_false, List.reverse_cons, List.foldl_append,
        List.foldl_cons, List.foldl_nil]
      rw [ih (w / 2 ^ 7) (Nat.div_lt_self (Nat.pos_of_ne_zero hw) (by norm_num))]
      show varUintStep (w / 2 ^ 7 % 2 ^ 64) (w % 2 ^ 7) = w % 2 ^ 64
      unfold varUintStep
      have h7 : (2 : ℕ) ^ 7 = 128 := by norm_num
      have h64 : (2 : ℕ) ^ 64 = 18446744073709551616 := by norm_num
      rw [h7, h64]
      omega

lemma read_write_var_uint (v : Nat) (hv : v < 2 ^ 64) :
    read_var_uint (write_var_uint v) = .ok (some (v, [])) := by
  have hshape : write_var_uint v
      = (varUintHighGroups (v / 2 ^ 7)).reverse ++ (v % 2 ^ 7 + 2 ^ 7) :: [] := by
    simp [write_var_uint]
  have hne : write_var_uint v ≠ [] := by simp [hshape]
  rcases h : write_var_uint v with _ | ⟨b, rest⟩
  · exact absurd h hne
  · rw [read_var_uint_cons, ← h, hshape]
    rw [varUintRun_append _ _ _
      (fun g hg => varUintHighGroups_testBit _ g (by simpa using hg))
      (stopByte_testBit v)]
    rw [foldl_varUintStep_highGroups]
    unfold varUintStep
    have h7 : (2 : ℕ) ^ 7 = 128 := by norm_num
    have h64 : (2 : ℕ) ^ 64 = 18446744073709551616 := by norm_num
    rw [h7, h64] at *
    have hval : (v / 128 % 18446744073709551616 * 128 + (v % 128 + 128) % 128) %
        18446744073709551616 = v := by omega
    rw [hval]
    rfl

lemma write_var_uint_ne_nil (v : Nat) : write_var_uint v ≠ [] := by
  simp [write_var_uint]

/-- C5: for every u64 value v (including 0 and u64::MAX), decoding the byte
    sequence produced by the VarUint encoder (`write_var_uint`) yields the
    value back (`decode(encode(v)) == Some(v)`); the encoder always emits at
    least one byte, and 0 encodes as the single byte 0x80. -/
theorem varuint_roundtrip (v : Nat) (hv : v < 2 ^ 64) :
    read_var_uint (write_var_uint v) = .ok (some (v, []))
      ∧ 1 ≤ (write_var_uint v).length
      ∧ write_var_uint 0 = [0x80] := by
  refine ⟨read_write_var_uint v hv, ?_, ?_⟩
  · have := write_var_uint_ne_nil v
    cases h : write_var_uint v with
    | nil => exact absurd h this
    | cons b rest => simp
  · rw [write_var_uint, varUintHighGroups]; rfl

/-- Witness for C5 at the extreme value `u64::MAX = 2 ^ 64 - 1` and at `0`. -/
theorem varuint_roundtrip_witness :
    read_var_uint (write_var_uint (2 ^ 64 - 1)) = .ok (some (2 ^ 64 - 1, []))
      ∧ read_var_uint (write_var_uint 0) = .ok (some (0, [])) :=
  ⟨(varuint_roundtrip (2 ^ 64 - 1) (by norm_num)).1,
   (varuint_roundtrip 0 (by norm_num)).1⟩

lemma varUintLoop_no_stop (rest : List Nat) :
    ∀ value byte, byte.testBit 7 = false →
      (∀ b ∈ rest, b.testBit 7 = false) →
      varUintLoop value byte rest = .error .IoError := by
  induction rest with
  | nil => intro value byte hb _; simp [varUintLoop, hb]
  | cons b l ih =>
    intro value byte hb hrest
    simp only [varUintLoop, hb, Bool.false_eq_true, if_false]
    exact ih _ b (hrest b (by simp)) (fun x hx => hrest x (by simp [hx]))

/-- C7: VarUint decoding of an empty input returns clean end-of-stream
    (`Ok(None)`, not an error); decoding a non-empty input in which no byte
    has the stop bit set — a multi-byte sequence cut short after at least one
    byte was read — is a hard I/O error. -/
theorem varuint_end_of_stream :
    read_var_uint [] = .ok none
      ∧ ∀ bs : List Nat, bs ≠ [] → (∀ b ∈ bs, b.testBit 7 = false) →
          read_var_uint bs = .error .IoError := by
  refine ⟨rfl, ?_⟩
  intro bs hne hb
  cases bs with
  | nil => exact absurd rfl hne
  | cons b rest =>
    rw [read_var_uint]
    rw [varUintLoop_no_stop rest 0 b (hb b (by simp))
      (fun x hx => hb x (by simp [hx]))]
    rfl

/-- Witness for C7: the truncated single-byte input `[0x05]` (no stop bit)
    errors, while the empty input is a clean end of stream. -/
theorem varuint_end_of_stream_witness :
    read_var_uint [] = .ok none ∧ read_var_uint [5] = .error .IoError :=
  ⟨varuint_end_of_stream.1,
   varuint_end_of_stream.2 [5] (by simp) (by decide)⟩

lemma shiftLeft_lor_eq_add :
    ∀ (k x y : ℕ), y < 2 ^ k → x <<< k ||| y = x * 2 ^ k + y := by
  intro k
  induction k with
  | zero =>
    intro x y hy
    have hy0 : y = 0 := by omega
    simp [hy0, Nat.shiftLeft_eq]
  | succ k ih =>
    intro x y hy
    have hx1 : x <<< (k + 1) = Nat.bit false (x <<< k) := by
      rw [Nat.bit_val]
      simp only [Nat.shiftLeft_eq, Bool.toNat_false, Nat.add_zero, Nat.pow_succ]
      ring
    have hy1 : Nat.bit (decide (y % 2 = 1)) (y >>> 1) = y :=
      Nat.bit_decide_mod_two_eq_one_shiftRight_one y
    have hpow : (2 : ℕ) ^ (k + 1) = 2 ^ k * 2 := Nat.pow_succ 2 k
    have hhalf : y >>> 1 < 2 ^ k := by
      rw [Nat.shiftRight_one]
      omega
    have hb : (decide (y % 2 = 1)).toNat = y % 2 := by
      rcases Nat.mod_two_eq_zero_or_one y with h | h <;> simp [h]
    have step1 : x <<< (k + 1) ||| y
        = Nat.bit (false || decide (y % 2 = 1)) (x <<< k ||| y >>> 1) := by
      conv_lhs => rw [hx1, ← hy1]
      exact Nat.lor_bit false (x <<< k) (decide (y % 2 = 1)) (y >>> 1)
    rw [step1, Bool.false_or, ih x (y >>> 1) hhalf, Nat.bit_val, hb,
      Nat.shiftRight_one]
    have hr : x * 2 ^ (k + 1) = x * 2 ^ k * 2 := by rw [hpow]; ring
    rw [hr]
    generalize x * 2 ^ k = d
    omega

/-- C8: parsing fails with `InvalidPacketLength` for buffers shorter than 5
    bytes; otherwise it succeeds with the sequence number the big-endian u32
    of the first four bytes, sub-channel the fifth byte, and payload the
    rest; in particular `[0,0,0,7,0]` parses to
    `{seq=7, sub_channel=0, payload=[]}`. -/
theorem udp_packet_read (buffer : List Nat) :
    (buffer.length < 5 →
      UDPPacket.read buffer = .error (.InvalidPacketLength buffer.length))
    ∧ (∀ b0 b1 b2 b3 b4 rest, buffer = b0 :: b1 :: b2 :: b3 :: b4 :: rest →
        b0 < 256 → b1 < 256 → b2 < 256 → b3 < 256 →
        UDPPacket.read buffer =
          .ok ⟨((b0 * 256 + b1) * 256 + b2) * 256 + b3, b4, rest⟩)
    ∧ UDPPacket.read [0, 0, 0, 7, 0] = .ok ⟨7, 0, []⟩ := by
  refine ⟨?_, ?_, by rfl⟩
  · intro h
    simp [UDPPacket.read, h]
  · intro b0 b1 b2 b3 b4 rest hbuf h0 h1 h2 h3
    subst hbuf
    have hlen : ¬((b0 :: b1 :: b2 :: b3 :: b4 :: rest).length < 5) := by
      simp
    rw [UDPPacket.read, if_neg hlen]
    have e3 : b2 <<< 8 ||| b3 = b2 * 2 ^ 8 + b3 :=
      shiftLeft_lor_eq_add 8 b2 b3 (by omega)
    have e2 : b1 <<< 16 ||| (b2 * 2 ^ 8 + b3) = b1 * 2 ^ 16 + (b2 * 2 ^ 8 + b3) :=
      shiftLeft_lor_eq_add 16 b1 _ (by norm_num; omega)
    have e1 : b0 <<< 24 ||| (b1 * 2 ^ 16 + (b2 * 2 ^ 8 + b3))
        = b0 * 2 ^ 24 + (b1 * 2 ^ 16 + (b2 * 2 ^ 8 + b3)) :=
      shiftLeft_lor_eq_add 24 b0 _ (by norm_num; omega)
    simp only [List.getElem!_cons_zero, List.getElem!_cons_succ,
      List.drop_succ_cons, List.drop_zero]
    rw [Nat.lor_assoc, Nat.lor_assoc, e3, e2, e1]
    have : b0 * 2 ^ 24 + (b1 * 2 ^ 16 + (b2 * 2 ^ 8 + b3))
        = ((b0 * 256 + b1) * 256 + b2) * 256 + b3 := by ring_nf
    rw [this]

/-- Witness for C8 at a too-short buffer and at a concrete 6-byte packet. -/
theorem udp_packet_read_witness :
    UDPPacket.read [1, 2] = .error (.InvalidPacketLength 2)
    ∧ UDPPacket.read [0, 1, 2, 3, 9, 77]
        = .ok ⟨((0 * 256 + 1) * 256 + 2) * 256 + 3, 9, [77]⟩ :=
  ⟨(udp_packet_read [1, 2]).1 (by decide),
   (udp_packet_read [0, 1, 2, 3, 9, 77]).2.1 0 1 2 3 9 [77] rfl
     (by decide) (by decide) (by decide) (by decide)⟩

lemma foldl_add_mod (bs : List Nat) :
    ∀ a : Nat, bs.foldl (fun acc c => (acc + c) % 256) (a % 256)
      = (a + bs.sum) % 256 := by
  induction bs with
  | nil => intro a; simp
  | cons c l ih =>
    intro a
    have h : (a % 256 + c) % 256 = (a + c) % 256 := by omega
    simp only [List.foldl_cons, h, ih (a + c), List.sum_cons]
    congr 1
    omega

lemma fixCrcFold_eq_sum (bs : List Nat) : fixCrcFold bs = bs.sum % 256 := by
  have := foldl_add_mod bs 0
  simpa [fixCrcFold] using this

/-- C3 (amended): the trailing checksum field of every control message built
    by `fixit` — hence of every `login`, `logout` and `request` message — is
    the byte sum modulo 256 of all bytes from the start of the `8=` field
    through the delimiter preceding `10=` (taken after delimiter
    substitution), rendered as decimal ASCII text (not as a raw byte),
    followed by the SOH delimiter. -/
theorem fix_checksum_decimal :
    (∀ text : List Nat, fixit text = fixFront text ++ strBytes ("10=")
        ++ strBytes (Nat.repr ((fixFront text).sum % 256)) ++ [0x01])
    ∧ (∀ (seq hb : Nat) (user password ts : String), ∃ front : List Nat,
        login seq user password hb ts
          = front ++ strBytes ("10=")
            ++ strBytes (Nat.repr (front.sum % 256)) ++ [0x01])
    ∧ (∀ (seq : Nat) (msg ts : String), ∃ front : List Nat,
        logout seq msg ts
          = front ++ strBytes ("10=")
            ++ strBytes (Nat.repr (front.sum % 256)) ++ [0x01])
    ∧ (∀ (seq fid : Nat) (ts : String), ∃ front : List Nat,
        request seq fid ts
          = front ++ strBytes ("10=")
            ++ strBytes (Nat.repr (front.sum % 256)) ++ [0x01]) := by
  have hfix : ∀ text : List Nat, fixit text = fixFront text ++ strBytes ("10=")
      ++ strBytes (Nat.repr ((fixFront text).sum % 256)) ++ [0x01] := by
    intro text
    rw [fixit, fixFront, fixCrcFold_eq_sum]
  exact ⟨hfix,
    fun seq hb user password ts => ⟨_, hfix _⟩,
    fun seq msg ts => ⟨_, hfix _⟩,
    fun seq fid ts => ⟨_, hfix _⟩⟩

set_option maxRecDepth 40000 in
/-- C3 (counterexample): on the repository's own reference message (the
    `test_crc` vector), the checksum trailer is the three ASCII digit bytes
    of `117` followed by SOH — the decimal text rendering — and not the
    single raw byte `117` followed by SOH as the claim states. -/
theorem fix_checksum_not_raw_byte :
    fixit (strBytes
        ("35=A|34=1|49=CQG|52=20250620-10:22:47|108=60|553=user|554=password"))
        = substPipes (strBytes
            ("8=FIX.5.0.SP2|9=67|35=A|34=1|49=CQG|52=20250620-10:22:47|108=60|553=user|554=password|"))
          ++ strBytes ("10=") ++ [0x31, 0x31, 0x37] ++ [0x01]
      ∧ fixit (strBytes
        ("35=A|34=1|49=CQG|52=20250620-10:22:47|108=60|553=user|554=password"))
        ≠ substPipes (strBytes
            ("8=FIX.5.0.SP2|9=67|35=A|34=1|49=CQG|52=20250620-10:22:47|108=60|553=user|554=password|"))
          ++ strBytes ("10=") ++ [117] ++ [0x01] := by
  constructor
  · rfl
  · decide

/-- C2 (counterexample): the reversed range token `3-1` alone does not fail:
    `from_strs` accepts it and returns the empty feed set, since iterating
    `3..=1` inserts nothing. -/
theorem feeds_reversed_range_not_error :
    from_strs [['3', '-', '1']] = .ok [] := by rfl

/-- C2 (amended): a range token `N-M` with `N > M` (not starting with `!`,
    not a plain numeral) is accepted by `from_strs` and contributes no feed
    ids; the input `"0 abc 3-1"` is still a parse error, but solely because
    of the non-numeric token `abc`, which the error names. -/
theorem feeds_reversed_range_accepted
    (tok : List Char) (lo hi : ℕ)
    (hbang : tok.head? ≠ some ('!'))
    (hnum : parseU32 tok = none)
    (hrange : parse_range tok = some (lo, hi))
    (hrev : hi < lo) :
    from_strs [tok] = .ok []
      ∧ from_strs [['0'], ['a', 'b', 'c'], ['3', '-', '1']]
          = .error ['a', 'b', 'c'] := by
  refine ⟨?_, by rfl⟩
  have hrangeEmpty : setInsertRange lo hi ([] : List ℕ) = [] := by
    rw [setInsertRange]
    have h0 : hi + 1 - lo = 0 := by omega
    rw [h0]
    rfl
  rw [from_strs]
  have hfold : List.foldlM processArg (([], []) : List ℕ × List ℕ) [tok]
      = .ok (setInsertRange lo hi [], []) := by
    show processArg ([], []) tok >>= (fun p => List.foldlM processArg p [])
      = .ok (setInsertRange lo hi [], [])
    rw [processArg, if_neg hbang, parse_and_push, hnum, hrange]
    rfl
  rw [hfold, hrangeEmpty]
  rfl

/-- Witness for C2's amended theorem at the token `3-1`. -/
theorem feeds_reversed_range_accepted_witness :
    from_strs [['3', '-', '1']] = .ok []
      ∧ from_strs [['0'], ['a', 'b', 'c'], ['3', '-', '1']]
          = .error ['a', 'b', 'c'] :=
  feeds_reversed_range_accepted ['3', '-', '1'] 3 1
    (by decide) (by decide) (by decide) (by decide)

/-- C6 (counterexample): after `read_file` selects the file source, a call to
    `login` succeeds but sends no control message and leaves `out_seq_num`
    unchanged (ditto `request`) — not "exactly one message and an increment
    by 1" as the claim states for every selected data source. -/
theorem control_send_file_source_noop :
    SDSConnection.login
        { source := some .file, in_seq_num_pkt := 1, in_seq_num_msg := 1,
          out_seq_num := 1 } ("user") ("password") ("20250620-10:22:47")
      = ({ source := some .file, in_seq_num_pkt := 1, in_seq_num_msg := 1,
           out_seq_num := 1 }, [])
    ∧ SDSConnection.request
        { source := some .file, in_seq_num_pkt := 1, in_seq_num_msg := 1,
          out_seq_num := 1 } 85 ("20250620-10:22:47")
      = ({ source := some .file, in_seq_num_pkt := 1, in_seq_num_msg := 1,
           out_seq_num := 1 }, []) := ⟨rfl, rfl⟩

/-- C6 (amended): when the selected data source is a TCP stream, every call
    to `login`, `request` (subscribe) or `logout` sends exactly one control
    message built from the current `out_seq_num` — `login` always with a
    60-second heartbeat interval — and advances `out_seq_num` by 1 (mod
    `2^32`); when the source is the file source, the calls succeed, send
    nothing and leave the state unchanged. -/
theorem control_send_tcp_only (s : SDSConnection)
    (user password ts : String) (fid : Nat) :
    (s.source = some .tcp →
      (s.login user password ts).2
          = [QuotesDirect.login s.out_seq_num user password 60 ts]
        ∧ (s.login user password ts).1.out_seq_num = (s.out_seq_num + 1) % 2 ^ 32
        ∧ (s.request fid ts).2 = [QuotesDirect.request s.out_seq_num fid ts]
        ∧ (s.request fid ts).1.out_seq_num = (s.out_seq_num + 1) % 2 ^ 32
        ∧ (s.logout ts).2 = [QuotesDirect.logout s.out_seq_num ("Logout") ts]
        ∧ (s.logout ts).1.out_seq_num = (s.out_seq_num + 1) % 2 ^ 32)
    ∧ (s.source = some .file →
      s.login user password ts = (s, [])
        ∧ s.request fid ts = (s, [])
        ∧ s.logout ts = (s, [])) := by
  constructor
  · intro h
    simp [SDSConnection.login, SDSConnection.request, SDSConnection.logout, h]
  · intro h
    simp [SDSConnection.login, SDSConnection.request, SDSConnection.logout, h]

/-- Witness for C6's amended theorem on a concrete TCP-source connection and
    a concrete file-source connection. -/
theorem control_send_tcp_only_witness :
    (SDSConnection.login
        { source := some .tcp, in_seq_num_pkt := 1, in_seq_num_msg := 1,
          out_seq_num := 7 } ("u") ("p") ("ts")).1.out_seq_num = 8
    ∧ SDSConnection.logout
        { source := some .file, in_seq_num_pkt := 1, in_seq_num_msg := 1,
          out_seq_num := 7 } ("ts")
      = ({ source := some .file, in_seq_num_pkt := 1, in_seq_num_msg := 1,
           out_seq_num := 7 }, []) := by
  constructor
  · have h := (control_send_tcp_only
      { source := some .tcp, in_seq_num_pkt := 1, in_seq_num_msg := 1,
        out_seq_num := 7 } ("u") ("p") ("ts") 85).1 rfl
    rw [h.2.1]
    rfl
  · exact ((control_send_tcp_only
      { source := some .file, in_seq_num_pkt := 1, in_seq_num_msg := 1,
        out_seq_num := 7 } ("u") ("p") ("ts") 85).2 rfl).2.2

/-- C1 (counterexample): feeding packets `[1, 2, 5, 6]` into a fresh Session
    Connection (`in_seq_num_pkt = 1`), no read fails, but after the packet
    with sequence number 5 the expected counter is 7, not 6 — the code sets
    it to `5 + 1` and then increments it again — and the in-order packet 6 is
    consequently also reported as a mismatch. -/
theorem pkt_seq_gap_counter :
    pktSeqRun 1 [1, 2, 5, 6]
        = [(false, 2), (false, 3), (true, 7), (true, 8)]
      ∧ (pktSeqRun 1 [1, 2, 5, 6])[2]!.2 ≠ 6 := ⟨rfl, by decide⟩

/-- C1 (amended): the sequence check never fails a read (every packet yields
    exactly one report); a mismatched packet with sequence `p` always leaves
    the expected counter at `p + 2` (mod `2^32`) — reset to `p + 1`, then
    unconditionally incremented — and a matched one advances it by 1; on the
    stream `[1, 2, 5, 6]` the counter after the gap packet 5 is therefore 7
    and packet 6 is reported as a further (logged, non-failing) mismatch. -/
theorem pkt_seq_resync :
    (∀ (s : Nat) (ps : List Nat), (pktSeqRun s ps).length = ps.length)
    ∧ (∀ s p : Nat, p ≠ s → pktSeqCheck s p = (true, (p + 2) % 2 ^ 32))
    ∧ (∀ s : Nat, pktSeqCheck s s = (false, (s + 1) % 2 ^ 32))
    ∧ pktSeqRun 1 [1, 2, 5, 6]
        = [(false, 2), (false, 3), (true, 7), (true, 8)] := by
  refine ⟨?_, ?_, ?_, rfl⟩
  · intro s ps
    induction ps generalizing s with
    | nil => rfl
    | cons p ps ih => simp [pktSeqRun, ih]
  · intro s p h
    simp only [pktSeqCheck, if_pos h]
    have : ((p + 1) % 2 ^ 32 + 1) % 2 ^ 32 = (p + 2) % 2 ^ 32 := by omega
    simp [this]
  · intro s
    simp [pktSeqCheck]

/-- Witness for C1's amended theorem: the mismatch rule at expected 3,
    received 5 yields counter 7. -/
theorem pkt_seq_resync_witness :
    pktSeqCheck 3 5 = (true, 7) ∧ (pktSeqRun 3 [7]).length = 1 :=
  ⟨by rw [pkt_seq_resync.2.1 3 5 (by decide)]; rfl,
   pkt_seq_resync.1 3 [7]⟩

lemma process_secdef (s : SDSClient) (d : SecurityDefinition) :
    s.process (.MDSecurityDefinition d) =
      match parseU32 d.appl_id with
      | none => ({ s with defs_count_total := d.tot_num_reports }, .error ())
      | some fid =>
        if (fid, d.security_id) ∈ s.sec_ids then
          ({ s with defs_count_total := d.tot_num_reports }, .ok true)
        else
          ({ s with
               defs_count_total := d.tot_num_reports
               sec_ids := insert (fid, d.security_id) s.sec_ids
               defs_count := (s.defs_count + 1) % 2 ^ 32 }, .ok false) := by
  rw [SDSClient.process]

/-- C9: two security-definition messages with the same
    `(feed_id, security_id)` key yield `is_update = false` then `true`;
    `defs_count` is incremented exactly once (on the first), and the repeat
    leaves both `defs_count` and the seen set unchanged. -/
theorem subscription_dedup (s : SDSClient) (m : SecurityDefinition)
    (feed_id : Nat)
    (hparse : parseU32 m.appl_id = some feed_id)
    (hnew : (feed_id, m.security_id) ∉ s.sec_ids) :
    (s.process (.MDSecurityDefinition m)).2 = .ok false
    ∧ (s.process (.MDSecurityDefinition m)).1.defs_count
        = (s.defs_count + 1) % 2 ^ 32
    ∧ (s.process (.MDSecurityDefinition m)).1.sec_ids
        = insert (feed_id, m.security_id) s.sec_ids
    ∧ ((s.process (.MDSecurityDefinition m)).1.process
        (.MDSecurityDefinition m)).2 = .ok true
    ∧ ((s.process (.MDSecurityDefinition m)).1.process
        (.MDSecurityDefinition m)).1.defs_count
        = (s.defs_count + 1) % 2 ^ 32
    ∧ ((s.process (.MDSecurityDefinition m)).1.process
        (.MDSecurityDefinition m)).1.sec_ids
        = insert (feed_id, m.security_id) s.sec_ids := by
  have h1 : s.process (.MDSecurityDefinition m)
      = ({ s with
             defs_count_total := m.tot_num_reports
             sec_ids := insert (feed_id, m.security_id) s.sec_ids
             defs_count := (s.defs_count + 1) % 2 ^ 32 }, .ok false) := by
    rw [process_secdef]
    simp only [hparse]
    rw [if_neg hnew]
  have h2 : ((s.process (.MDSecurityDefinition m)).1.process
      (.MDSecurityDefinition m)).2 = .ok true
      ∧ ((s.process (.MDSecurityDefinition m)).1.process
          (.MDSecurityDefinition m)).1
        = (s.process (.MDSecurityDefinition m)).1 := by
    rw [h1]
    rw [process_secdef]
    simp only [hparse]
    rw [if_pos (by simp)]
    exact ⟨rfl, rfl⟩
  refine ⟨by rw [h1], by rw [h1], by rw [h1], h2.1, ?_, ?_⟩
  · rw [h2.2, h1]
  · rw [h2.2, h1]

/-- Witness for C9 on a fresh catalog and a concrete security definition
    (`tot_num_reports = 10`, `security_id = 5`, `appl_id = "1"`). -/
theorem subscription_dedup_witness :
    (SDSClient.new.process
        (.MDSecurityDefinition ⟨10, 5, ['1']⟩)).2 = .ok false
    ∧ ((SDSClient.new.process
        (.MDSecurityDefinition ⟨10, 5, ['1']⟩)).1.process
        (.MDSecurityDefinition ⟨10, 5, ['1']⟩)).2 = .ok true :=
  have h := subscription_dedup SDSClient.new ⟨10, 5, ['1']⟩ 1
    (by rfl) (by simp [SDSClient.new])
  ⟨h.1, h.2.2.2.1⟩

/-- C10: when a security-definition message's `appl_id` does not parse as a
    decimal u32, `read_message` errors, and in the resulting state
    `defs_count` and the seen set are unchanged while `defs_count_total` has
    already been overwritten with that message's `tot_num_reports` — the
    error is not atomic with respect to catalog state. -/
theorem secdef_parse_error_not_atomic (s : SDSClient) (m : SecurityDefinition)
    (hparse : parseU32 m.appl_id = none) :
    s.process (.MDSecurityDefinition m)
      = ({ defs_count_total := m.tot_num_reports,
           defs_count := s.defs_count,
           sec_ids := s.sec_ids }, .error ()) := by
  rw [process_secdef]
  simp only [hparse]

/-- Witness for C10 at a non-numeric application id on a nonempty catalog. -/
theorem secdef_parse_error_not_atomic_witness :
    SDSClient.process
        { defs_count_total := 3, defs_count := 2, sec_ids := {(1, 1), (1, 2)} }
        (.MDSecurityDefinition ⟨9, 7, ['x']⟩)
      = ({ defs_count_total := 9, defs_count := 2,
           sec_ids := {(1, 1), (1, 2)} }, .error ()) :=
  secdef_parse_error_not_atomic
    { defs_count_total := 3, defs_count := 2, sec_ids := {(1, 1), (1, 2)} }
    ⟨9, 7, ['x']⟩ (by rfl)

/-- C4 (counterexample): `progress()` is not non-decreasing across
    `read_message` calls when `tot_num_reports` varies between
    security-definition messages: a first message with `tot_num_reports = 1`
    brings progress to 100, and a repeat of the same key with
    `tot_num_reports = 2` drops it to 50. -/
theorem progress_not_monotone :
    ((SDSClient.new.process (.MDSecurityDefinition ⟨1, 1, ['1']⟩)).1).progress = 100
    ∧ (((SDSClient.new.process (.MDSecurityDefinition ⟨1, 1, ['1']⟩)).1.process
        (.MDSecurityDefinition ⟨2, 1, ['1']⟩)).1).progress = 50
    ∧ (((SDSClient.new.process (.MDSecurityDefinition ⟨1, 1, ['1']⟩)).1.process
        (.MDSecurityDefinition ⟨2, 1, ['1']⟩)).1).progress
      < ((SDSClient.new.process (.MDSecurityDefinition ⟨1, 1, ['1']⟩)).1).progress := by
  have h1 : (SDSClient.new.process (.MDSecurityDefinition ⟨1, 1, ['1']⟩)).1
      = { defs_count_total := 1, defs_count := 1, sec_ids := {(1, 1)} } := by
    rw [process_secdef]
    simp [SDSClient.new, parseU32]
  have h2 : ((SDSClient.new.process (.MDSecurityDefinition ⟨1, 1, ['1']⟩)).1.process
      (.MDSecurityDefinition ⟨2, 1, ['1']⟩)).1
      = { defs_count_total := 2, defs_count := 1, sec_ids := {(1, 1)} } := by
    rw [h1, process_secdef]
    simp [parseU32]
  rw [h2, h1]
  refine ⟨?_, ?_, ?_⟩ <;> norm_num [SDSClient.progress]

/-- C4 (amended): provided every security-definition message carries the
    same `tot_num_reports` as the catalog's current `defs_count_total` (a
    fixed total, as the protocol repeats it per record) and `defs_count` does
    not overflow, `progress()` is non-decreasing from call to call; and
    whenever `defs_count_total ≠ 0`, `progress() = 100` exactly when
    `defs_count == defs_count_total` (at `defs_count_total = 0` progress is 0
    even when the counters are equal, as at the initial state). -/
theorem progress_monotone :
    (∀ (s : SDSClient) (msg : Message),
      (∀ d, msg = .MDSecurityDefinition d → d.tot_num_reports = s.defs_count_total) →
      s.defs_count + 1 < 2 ^ 32 →
      s.progress ≤ (s.process msg).1.progress)
    ∧ (∀ s : SDSClient, s.defs_count_total ≠ 0 →
        (s.progress = 100 ↔ s.defs_count = s.defs_count_total)) := by
  constructor
  · intro s msg htot hsmall
    cases msg with
    | MDSecurityDefinition d =>
      have hd : d.tot_num_reports = s.defs_count_total := htot d rfl
      have heta : ({ s with defs_count_total := d.tot_num_reports } : SDSClient)
          = s := by rw [hd]
      rw [process_secdef]
      cases hp : parseU32 d.appl_id with
      | none =>
        simp only [hp, heta]
        exact le_refl _
      | some fid =>
        simp only [hp]
        by_cases hmem : (fid, d.security_id) ∈ s.sec_ids
        · rw [if_pos hmem]
          simp only [heta]
          exact le_refl _
        · rw [if_neg hmem]
          show s.progress ≤ SDSClient.progress _
          rw [SDSClient.progress, SDSClient.progress]
          simp only [hd]
          by_cases h0 : s.defs_count_total = 0
          · simp [h0]
          · rw [if_neg h0, if_neg h0]
            have hc : (s.defs_count + 1) % 2 ^ 32 = s.defs_count + 1 :=
              Nat.mod_eq_of_lt hsmall
            rw [hc]
            have hpos : (0 : ℚ) < (s.defs_count_total : ℚ) := by
              exact_mod_cast Nat.pos_of_ne_zero h0
            have hle : (s.defs_count : ℚ) ≤ ((s.defs_count + 1 : ℕ) : ℚ) := by
              exact_mod_cast Nat.le_succ _
            gcongr
    | MDHeartbeat => exact le_of_eq rfl
    | MDLogon => exact le_of_eq rfl
    | MDLogout => exact le_of_eq rfl
    | MDSecurityDefinitionRequest => exact le_of_eq rfl
  · intro s h0
    rw [SDSClient.progress, if_neg h0]
    have hpos : (0 : ℚ) < (s.defs_count_total : ℚ) := by
      exact_mod_cast Nat.pos_of_ne_zero h0
    rw [div_mul_eq_mul_div, div_eq_iff (ne_of_gt hpos)]
    constructor
    · intro h
      have : (s.defs_count : ℚ) = (s.defs_count_total : ℚ) := by linarith
      exact_mod_cast this
    · intro h
      rw [h]
      ring

/-- Witness for C4's amended theorem: a heartbeat step from the initial
    state does not decrease progress, and at counters 2/2 progress is 100. -/
theorem progress_monotone_witness :
    SDSClient.new.progress ≤ (SDSClient.new.process .MDHeartbeat).1.progress
    ∧ (SDSClient.progress { defs_count_total := 2, defs_count := 2, sec_ids := ∅ }
        = 100
      ↔ (2 : ℕ) = 2) :=
  ⟨progress_monotone.1 SDSClient.new .MDHeartbeat (by intro d hd; cases hd)
      (by norm_num [SDSClient.new]),
   progress_monotone.2 { defs_count_total := 2, defs_count := 2, sec_ids := ∅ }
      (by norm_num)⟩

end QuotesDirect
